import Mathlib

/-!
# Verification of the agentic data-analysis pipeline

A shallow embedding of the LangGraph data-analysis pipeline:
the field profiler (`inspectField` in `nodes/analyzer/index.ts`), the
visualization tools (`tools/visualization.ts`), the tool-calling loop of the
question generator (`nodes/question-generator/index.ts`), and the two-node
graph wiring (`langgraph/index.ts`).

Modelling conventions:
* JavaScript numbers are modelled by exact rationals (`ℚ`); floating-point
  rounding is outside the scope of the statements proved here.  `Math.sqrt`
  produces an irrational in general, so the profiler's `std` field is carried
  as its radicand (`variance`); theorems about `std` are phrased through
  `Real.sqrt` of that radicand.
* A data row (a JSON object) is an association list from field names to
  values; a missing key plays the role of JavaScript `undefined`.
* Calls to the hosted language model are modelled by an oracle
  `ℕ → ModelResponse` giving the response to the n-th model invocation, and
  the unbounded `while (true)` loop by a fuel parameter: `none` means the
  loop is still running after `fuel` iterations.
* The verbatim prompt strings sent to the model are irrelevant to every
  property proved here (the spec lists prompt contents as a non-goal), so
  they are abbreviated constants.
-/

namespace AgenticAnalysis

/-- A JavaScript value that can appear in a data cell.  (`null`, nested
objects and arrays do not occur in the profiled tabular data model.) -/
inductive JSValue where
  | num  (q : ℚ)
  | str  (s : String)
  | bool (b : Bool)
deriving DecidableEq

/-- `typeof` on a data cell value. -/
def typeofJS : JSValue → String
  | .num _ => "number"
  | .str _ => "string"
  | .bool _ => "boolean"

/-- JavaScript `String(v)`.  Number rendering is modelled by the exact
rational rendering; the profiler only uses this function to group equal
values, which is insensitive to the concrete rendering. -/
def jsString : JSValue → String
  | .num q => toString q
  | .str s => s
  | .bool b => if b then "true" else "false"

/-- Extract the numeric payload of a cell value. -/
def asNumber : JSValue → Option ℚ
  | .num q => some q
  | _ => none

/-- A row of the tabular data: a JSON object, keyed by field name. -/
abbrev Row := List (String × JSValue)

/-- `item[field]`: `none` models JavaScript `undefined`. -/
def rowGet (item : Row) (field : String) : Option JSValue :=
  (item.find? (fun kv => kv.1 == field)).map (fun kv => kv.2)

/-- `globalState.data.map(item => item[field]).filter(x => x !== undefined)`. -/
def presentValues (data : List Row) (field : String) : List JSValue :=
  (data.map (fun item => rowGet item field)).reduceOption

/-- The `type` of a field: `typeof` of the first present value,
`"unknown"` when every row misses the field. -/
def fieldType (values : List JSValue) : String :=
  match values with
  | [] => "unknown"
  | v :: _ => typeofJS v

/-- `numbers.reduce((a, b) => a + b, 0)`. -/
def jsSum (l : List ℚ) : ℚ := l.foldl (fun a b => a + b) 0

/-- `numbers.reduce((a, b) => a + Math.pow(b - mean, 2), 0)`. -/
def sqDevSum (mean : ℚ) (l : List ℚ) : ℚ :=
  l.foldl (fun a b => a + (b - mean) ^ 2) 0

/-- `Math.min(...numbers)` on a nonempty list (the profiler only calls it
with at least one value; `Math.min()` of no arguments would be `Infinity`,
which has no exact-arithmetic counterpart). -/
def mathMin : List ℚ → ℚ
  | [] => 0
  | x :: xs => xs.foldl min x

/-- `Math.max(...numbers)` on a nonempty list. -/
def mathMax : List ℚ → ℚ
  | [] => 0
  | x :: xs => xs.foldl max x

/-- `numbers.sort((a, b) => a - b)`: ascending numeric sort.  The sorting
algorithm JavaScript uses is unspecified; any correct ascending sort is
extensionally the same, insertion sort is chosen for kernel evaluability. -/
def sortNumbers (l : List ℚ) : List ℚ := l.insertionSort (fun a b => a ≤ b)

/-- The sampled positions `Math.floor(p * (arr.length - 1))` for
`p ∈ {0, 0.25, 0.5, 0.75, 1}`. -/
def percentilePositions (n : ℕ) : List ℕ :=
  ([0, 1/4, 1/2, 3/4, 1] : List ℚ).map (fun p => (⌊p * ((n : ℚ) - 1)⌋).toNat)

/-- JavaScript `arr.filter((_, i) => P(i))`: keep the elements whose index
satisfies the predicate. -/
def filterWithIndex (P : ℕ → Bool) (xs : List α) : List α :=
  (xs.enum.filter (fun iv => P iv.1)).map (fun iv => iv.2)

/-- The percentile sampling of the sorted numbers:
`sorted.filter((_, i, arr) => positions.some(p => i === Math.floor(p * (arr.length - 1))))`. -/
def percentileSamples (sorted : List ℚ) : List ℚ :=
  filterWithIndex (fun i => (percentilePositions sorted.length).contains i) sorted

/-- One step of `valueMap.set(strVal, (valueMap.get(strVal) || 0) + 1)` on a
JavaScript `Map`, which preserves first-insertion order of keys. -/
def bumpCount (m : List (String × ℕ)) (k : String) : List (String × ℕ) :=
  if m.any (fun e => e.1 == k) then
    m.map (fun e => if e.1 == k then (e.1, e.2 + 1) else e)
  else
    m ++ [(k, 1)]

/-- `values.forEach(v => valueMap.set(String(v), ...))`: the value-count map
in insertion order. -/
def valueCounts (vals : List String) : List (String × ℕ) :=
  vals.foldl bumpCount []

/-- The `stats` record of a numeric field.  The TypeScript record carries
`std = Math.sqrt(variance)`; since the real square root of a rational is
irrational in general, the radicand is carried instead and `std` is
`Real.sqrt variance` in the statements. -/
structure NumericStats where
  min : ℚ
  max : ℚ
  mean : ℚ
  variance : ℚ
deriving DecidableEq

/-- One entry of the `uniqueValues` list of a categorical field. -/
structure UniqueValueEntry where
  value : String
  count : ℕ
  frequency : ℚ
deriving DecidableEq

/-- The record returned by `inspectField`. -/
structure FieldInspection where
  type : String
  samples : List JSValue
  uniqueValues : Option (List UniqueValueEntry)
  totalValues : ℕ
  missingValues : ℕ
  stats : Option NumericStats
deriving DecidableEq

/-- `inspectField` from `nodes/analyzer/index.ts` (lines 55-106).
The TypeScript numeric branch casts `values as number[]` without checking;
on a column whose present values are not all numbers the JavaScript
arithmetic degenerates to `NaN`, which has no exact-arithmetic counterpart.
The embedding extracts the numeric payloads; the theorems assume homogeneous
numeric columns, on which the two coincide. -/
def inspectField (data : List Row) (field : String) : FieldInspection :=
  let values := presentValues data field
  let type := fieldType values
  if type = "number" then
    let numbers := values.filterMap asNumber
    let mean := jsSum numbers / (numbers.length : ℚ)
    let variance := sqDevSum mean numbers / (numbers.length : ℚ)
    { type := type
      samples := (percentileSamples (sortNumbers numbers)).map JSValue.num
      uniqueValues := none
      totalValues := values.length
      missingValues := data.length - values.length
      stats := some { min := mathMin numbers, max := mathMax numbers,
                      mean := mean, variance := variance } }
  else
    { type := type
      samples := values.take 5
      uniqueValues := some ((valueCounts (values.map jsString)).map
        (fun e => { value := e.1, count := e.2,
                    frequency := (e.2 : ℚ) / (values.length : ℚ) }))
      totalValues := values.length
      missingValues := data.length - values.length
      stats := none }

/-- The field metadata assembled by `dataAnalyzer`'s first pass
(lines 191-204 of `nodes/analyzer/index.ts`). -/
structure FieldMetadata where
  type : String
  description : String
  rangeMin : Option ℚ
  rangeMax : Option ℚ
  rangeUniqueValues : Option (List String)
  missingCount : ℕ
  totalCount : ℕ
  examples : List JSValue
deriving DecidableEq

/-- `metadataFields[field] = { type, description: '', missingCount, totalCount,
range, examples }` built from one `inspectField` result. -/
def mkFieldMetadata (a : FieldInspection) : FieldMetadata :=
  { type := a.type
    description := ""
    rangeMin := a.stats.map (fun s => s.min)
    rangeMax := a.stats.map (fun s => s.max)
    rangeUniqueValues := a.uniqueValues.map (fun l => l.map (fun e => e.value))
    missingCount := a.missingValues
    totalCount := a.totalValues
    examples := a.samples }

/-- `Object.keys(state.data[0] || {})`. -/
def dataFields (data : List Row) : List String :=
  (data.headD []).map (fun kv => kv.1)

/-- A generated visualization question. -/
structure VisualizationQuestion where
  id : String
  question : String
  type : String
  fields : List String
  description : String
deriving DecidableEq

/-- The dataset metadata carried in the graph state. -/
structure DatasetMetadata where
  fields : List (String × FieldMetadata)
  rowCount : ℕ
  summary : String
  dataQualityIssues : List String
  questions : Option (List VisualizationQuestion)
deriving DecidableEq

/-- The graph state: the tabular data and the (optional) metadata. -/
structure GraphState where
  data : List Row
  metadata : Option DatasetMetadata
deriving DecidableEq

/-- The pure skeleton of `dataAnalyzer` (lines 180-232 of
`nodes/analyzer/index.ts`): the first pass profiles every field of the first
row; the second and third passes call the language model, modelled by the
`describe` and `summary` oracles. -/
def dataAnalyzer (describe : String → String) (summary : String)
    (data : List Row) : DatasetMetadata :=
  let metadataFields := (dataFields data).map
    (fun f => (f, mkFieldMetadata (inspectField data f)))
  let described := metadataFields.map
    (fun p => (p.1, { p.2 with description := describe p.1 }))
  { fields := described
    rowCount := data.length
    summary := summary
    dataQualityIssues := (described.filter (fun p => decide (0 < p.2.missingCount))).map
      (fun p => p.1 ++ ": " ++ toString p.2.missingCount ++
        " missing values out of " ++ toString p.2.totalCount)
    questions := none }

/-! ## The visualization tools (`tools/visualization.ts`) -/

/-- One entry of the graph catalog. -/
structure GraphType where
  key : String
  description : String
deriving DecidableEq

/-- The fixed catalog of available graph types (lines 12-89 of
`tools/visualization.ts`). -/
def graphCatalog : List GraphType := [
  { key := "histogram",
    description := "Use for 1 numeric variable with MANY data points (not necessarily ordered). Shows distribution." },
  { key := "density-plot",
    description := "Use for 1 numeric variable with MANY data points to visualize the smooth distribution shape." },
  { key := "boxplot",
    description := "Use for 1+ numeric variables (often grouped by category) to compare distributions, outliers, median, etc." },
  { key := "violin-plot",
    description := "Similar to a boxplot but shows the full distribution shape. Useful for 1+ numeric variables, especially grouped." },
  { key := "lollipop-plot",
    description := "Good for FEW data points, often along a categorical axis (1 numeric + 1 categorical). Emphasizes differences." },
  { key := "barplot",
    description := "Displays numeric values aggregated by 1 or more categorical variables (counts, sums, etc.)." },
  { key := "scatterplot",
    description := "Use for 2 numeric variables that are NOT ordered. Shows relationship, correlation, clustering." },
  { key := "connected-scatterplot",
    description := "Use for 2 numeric variables that ARE ordered (e.g. time or a sequence). Points connected in order." },
  { key := "area-plot",
    description := "Use for numeric trends over an ORDERED axis (often time). Fills area under the line." },
  { key := "stacked-area",
    description := "Visualizes multiple numeric series over an ORDERED axis by stacking their areas." },
  { key := "streamgraph",
    description := "Variation of stacked area for multiple ordered numeric series, creating a flowing shape." },
  { key := "heatmap",
    description := "Uses color to represent numeric values across 2D space (numeric vs. numeric or numeric vs. category)." },
  { key := "treemap",
    description := "Represents hierarchical or nested categorical data using nested rectangles sized by a numeric value." },
  { key := "venn-diagram",
    description := "Shows overlaps among 2+ categorical sets." },
  { key := "grouped-scatter",
    description := "Scatterplot points grouped by categories, can show subgroups in scatter form." },
  { key := "network",
    description := "Visualizes relationships (edges) between entities (nodes)." },
  { key := "dendrogram",
    description := "Shows hierarchical relationships in a tree structure." },
  { key := "hierarchical-edge-bundling",
    description := "Another approach to visualize hierarchical data with edges bundled to reduce clutter." },
  { key := "line-chart",
    description := "Typically used for time series (1 numeric variable over an ordered axis). Points connected in chronological order." }]

/-- Whether there are few or many data points (`z.enum(["few", "many"])`). -/
inductive PointCount where
  | few
  | many
deriving DecidableEq

/-- The argument record of the `suggestGraphs` tool.  The two counts are
`z.number()`, i.e. arbitrary JavaScript numbers, modelled by rationals. -/
structure SuggestGraphsArgs where
  numericCount : ℚ
  categoricalCount : ℚ
  numericOrdered : Bool
  pointCount : PointCount
deriving DecidableEq

/-- The `suggestions` key list built by the case analysis in `suggestGraphs`
(lines 106-155 of `tools/visualization.ts`); the incremental `push` calls of
each branch are flattened into list literals. -/
def suggestGraphsKeys (a : SuggestGraphsArgs) : List String :=
  if a.categoricalCount = 0 then
    -- CASE A: Only numeric variables
    if a.numericCount = 1 then
      if a.pointCount = PointCount.few then
        ["lollipop-plot", "boxplot"]
      else
        ["histogram", "density-plot", "boxplot", "violin-plot"]
    else if a.numericCount = 2 then
      if a.numericOrdered then
        ["connected-scatterplot", "area-plot", "line-chart"]
      else
        ["scatterplot"]
    else if 3 ≤ a.numericCount then
      if a.numericOrdered then
        ["stacked-area", "streamgraph", "line-chart"]
      else
        ["heatmap", "scatterplot"]
    else []
  else if a.numericCount = 0 then
    -- CASE B: Only categorical variables
    if a.categoricalCount = 1 then
      ["barplot"] ++ (if a.pointCount = PointCount.few then ["lollipop-plot"] else [])
    else
      ["venn-diagram", "treemap", "grouped-scatter", "network"]
  else
    -- CASE C: Mixed numeric + categorical
    if a.numericCount = 1 ∧ a.categoricalCount = 1 then
      if a.pointCount = PointCount.few then
        ["lollipop-plot", "barplot"]
      else
        ["boxplot", "violin-plot", "barplot"]
    else
      ["barplot", "boxplot", "violin-plot", "heatmap"] ++
        (if a.numericOrdered then ["connected-scatterplot", "area-plot"] else [])

/-- The body of the `suggestGraphs` tool: look the suggested keys up in the
catalog (`graphCatalog.filter(...).map(...)`, lines 157-165). -/
def suggestGraphs (a : SuggestGraphsArgs) : List GraphType :=
  (graphCatalog.filter (fun g => (suggestGraphsKeys a).contains g.key)).map
    (fun g => { key := g.key, description := g.description })

/-! ## The tool dispatcher and the tool-calling loop
(`nodes/question-generator/index.ts`, final version: lines 359-413 and
423-558 of the concatenated source) -/

/-- The arguments carried by a tool call: either the empty record expected by
`getGraphCatalog` or the record expected by `suggestGraphs`. -/
inductive ToolArgs where
  | emptyArgs
  | suggest (a : SuggestGraphsArgs)
deriving DecidableEq

/-- A tool call requested by the model.  `id` is optional on the wire. -/
structure ToolCall where
  name : String
  id : Option String
  args : ToolArgs
deriving DecidableEq

/-- The observation a tool returns (a JSON string in TypeScript; carried
structurally here since no claim depends on the JSON rendering). -/
inductive ToolResult where
  | catalogJson (graphs : List GraphType)
  | suggestionsJson (graphs : List GraphType)
deriving DecidableEq

/-- A declared tool: its wire name and its body.  The body returns `none`
when the arguments do not match the tool's zod schema (the langchain
invocation throws in that case). -/
structure ToolSpec where
  name : String
  run : ToolArgs → Option ToolResult

/-- The `getGraphCatalog` tool. -/
def getGraphCatalogTool : ToolSpec :=
  { name := "getGraphCatalog"
    run := fun args =>
      match args with
      | .emptyArgs => some (.catalogJson graphCatalog)
      | _ => none }

/-- The `suggestGraphs` tool. -/
def suggestGraphsTool : ToolSpec :=
  { name := "suggestGraphs"
    run := fun args =>
      match args with
      | .suggest a => some (.suggestionsJson (suggestGraphs a))
      | _ => none }

/-- `export const visualizationTools = [getGraphCatalog, suggestGraphs]`. -/
def visualizationTools : List ToolSpec := [getGraphCatalogTool, suggestGraphsTool]

/-- `toolsByName[name]` (a lookup in the map built from `visualizationTools`). -/
def toolsByName (nm : String) : Option ToolSpec :=
  visualizationTools.find? (fun t => t.name == nm)

/-- The `ToolMessage` built from a tool observation. -/
structure ToolMessage where
  content : ToolResult
  tool_call_id : String
  name : String
deriving DecidableEq

/-- `callTool` (lines 359-413): dispatch a tool call, raising an error for an
unknown tool name, a missing call id, or arguments rejected by the schema. -/
def callTool (tc : ToolCall) : Except String ToolMessage :=
  match toolsByName tc.name with
  | none => .error ("Tool " ++ tc.name ++ " not found")
  | some tool =>
    match tc.id with
    | none => .error "Tool call ID is required"
    | some i =>
      match tool.run tc.args with
      | none => .error "Received tool input did not match expected schema"
      | some obs => .ok { content := obs, tool_call_id := i, name := tc.name }

/-- One model response: its text content and the tool calls it requests. -/
structure ModelResponse where
  content : String
  tool_calls : List ToolCall
deriving DecidableEq

/-- A message in the conversation list. -/
inductive Message where
  | system (s : String)
  | human (s : String)
  | ai (r : ModelResponse)
  | toolMsg (m : ToolMessage)
deriving DecidableEq

/-- `Promise.all(llmResponse.tool_calls.map(callTool))`: execute every
requested tool call in order; any failure rejects the whole batch. -/
def collectToolMessages : List ToolCall → Except String (List ToolMessage)
  | [] => .ok []
  | tc :: tcs =>
    match callTool tc with
    | .error e => .error e
    | .ok m =>
      match collectToolMessages tcs with
      | .error e => .error e
      | .ok ms => .ok (m :: ms)

/-- The value returned when the `while (true)` loop exits. -/
structure LoopResult where
  messages : List Message
  finalResponse : ModelResponse
  invocations : ℕ
deriving DecidableEq

/-- The `while (true)` tool-calling loop (lines 484-511).  `oracle k` is the
model's response to the `(k+1)`-st invocation; `msgs` is the current message
list; `fuel` bounds the number of iterations examined, `none` meaning the
loop is still running after `fuel` iterations.  On exit the result records
the message list, the final response (the first one without tool calls) and
the total number of model invocations performed. -/
def toolLoopAux (oracle : ℕ → ModelResponse) :
    ℕ → ℕ → List Message → Option (Except String LoopResult)
  | 0, _, _ => none
  | fuel + 1, k, msgs =>
    let r := oracle k
    if r.tool_calls.isEmpty then
      some (.ok { messages := msgs, finalResponse := r, invocations := k + 1 })
    else
      match collectToolMessages r.tool_calls with
      | .error e => some (.error e)
      | .ok tms =>
        toolLoopAux oracle fuel (k + 1)
          (msgs ++ [Message.ai r] ++ tms.map Message.toolMsg)

/-- The messages contributed by one tool-calling round: the model response
followed by one tool message per successfully executed tool call. -/
def roundMessages (r : ModelResponse) : List Message :=
  Message.ai r ::
    (r.tool_calls.filterMap (fun tc => (callTool tc).toOption)).map Message.toolMsg

/-- `!r.tool_calls.isEmpty`: the response requests at least one tool call. -/
def roundHasCalls (r : ModelResponse) : Bool := !r.tool_calls.isEmpty

/-- Every tool call of the response executes without error. -/
def roundExecOk (r : ModelResponse) : Bool :=
  (collectToolMessages r.tool_calls).toOption.isSome

/-- The first `k` responses all request tool calls and all their calls
execute successfully. -/
def loopRoundsOk (oracle : ℕ → ModelResponse) (k : ℕ) : Bool :=
  (List.range k).all (fun i => roundHasCalls (oracle i) && roundExecOk (oracle i))

/-- The number of model invocations of a finished loop run. -/
def loopInvocations (oracle : ℕ → ModelResponse) (fuel : ℕ)
    (msgs : List Message) : Option ℕ :=
  match toolLoopAux oracle fuel 0 msgs with
  | some (.ok res) => some res.invocations
  | _ => none

/-- The claim that the request/response cycle is bounded: some fixed `B`
bounds the number of model invocations of every finished run. -/
def boundedLoopClaim : Prop :=
  ∃ B : ℕ, ∀ (oracle : ℕ → ModelResponse) (fuel : ℕ) (msgs : List Message) (n : ℕ),
    loopInvocations oracle fuel msgs = some n → n ≤ B

/-! ## The question generator node -/

/-- A parsed question before an id is attached. -/
structure ParsedQuestion where
  question : String
  type : String
  fields : List String
  description : String
deriving DecidableEq

/-- `{ id: uuidv4(), ...q }` for each parsed question; the uuid supply is the
`newId` oracle indexed by position. -/
def attachIds (newId : ℕ → String) (qs : List ParsedQuestion) :
    List VisualizationQuestion :=
  (qs.enum).map (fun iq =>
    { id := newId iq.1, question := iq.2.question, type := iq.2.type,
      fields := iq.2.fields, description := iq.2.description })

/-- The system prompt of the question generator.  The verbatim prompt text is
an LLM artifact outside the scope of every claim (the spec declares prompt
contents a non-goal), so it is abbreviated. -/
def QUESTION_GENERATOR_PROMPT : String :=
  "You are a Data Visualization Expert specializing in exploratory data analysis."

/-- The user prompt built from the metadata (abbreviated for the same
reason; no claim depends on the prompt text). -/
def qgUserPrompt (md : DatasetMetadata) : String :=
  "Analyze this dataset and generate visualization questions: " ++ md.summary

/-- The initial message list of the question generator. -/
def qgInitialMessages (md : DatasetMetadata) : List Message :=
  [Message.system QUESTION_GENERATOR_PROMPT, Message.human (qgUserPrompt md)]

/-- The metadata returned by the `catch` branch of `questionGenerator`
(lines 545-558): the input metadata's components when present, defaults
otherwise, and an empty question list. -/
def qgErrorMetadata (state : GraphState) : DatasetMetadata :=
  { fields := (state.metadata.map (fun m => m.fields)).getD []
    rowCount := (state.metadata.map (fun m => m.rowCount)).getD 0
    summary := (state.metadata.map (fun m => m.summary)).getD "Error generating questions"
    dataQualityIssues := (state.metadata.map (fun m => m.dataQualityIssues)).getD []
    questions := some [] }

/-- `questionGenerator` (lines 423-558).  External collaborators are oracles:
`parse` is `outputParser.parse` composed with the markdown stripping (library
code), `newId` the uuid supply, `oracle` the model.  The result is `none`
when the tool loop is still running after `fuel` iterations; every exception
of the body (missing metadata, tool error, parse error) is caught and turned
into `qgErrorMetadata`. -/
def questionGenerator (parse : String → Except String (List ParsedQuestion))
    (newId : ℕ → String) (oracle : ℕ → ModelResponse) (fuel : ℕ)
    (state : GraphState) : Option DatasetMetadata :=
  match state.metadata with
  | none => some (qgErrorMetadata state)
  | some md =>
    match toolLoopAux oracle fuel 0 (qgInitialMessages md) with
    | none => none
    | some (.error _) => some (qgErrorMetadata state)
    | some (.ok res) =>
      match parse res.finalResponse.content with
      | .error _ => some (qgErrorMetadata state)
      | .ok qs =>
        some { fields := md.fields
               rowCount := md.rowCount
               summary := md.summary
               dataQualityIssues := md.dataQualityIssues
               questions := some (attachIds newId qs) }

/-- Whether the question-generator run succeeds (metadata present, loop done
without tool error, final content parses). -/
def qgSucceeds (parse : String → Except String (List ParsedQuestion))
    (oracle : ℕ → ModelResponse) (fuel : ℕ) (state : GraphState) : Bool :=
  match state.metadata with
  | none => false
  | some md =>
    match toolLoopAux oracle fuel 0 (qgInitialMessages md) with
    | some (.ok res) => (parse res.finalResponse.content).toOption.isSome
    | _ => false

/-! ## The compiled graph (`langgraph/index.ts`) -/

/-- The `START` sentinel of langgraph. -/
def START : String := "__start__"

/-- The `END` sentinel of langgraph. -/
def END : String := "__end__"

/-- A compiled state graph: its nodes and directed edges. -/
structure CompiledGraph where
  nodes : List String
  edges : List (String × String)

/-- `createAnalysisGraph` (lines 6-17 of `langgraph/index.ts`). -/
def createAnalysisGraph : CompiledGraph :=
  { nodes := ["analyzer", "question_generator"]
    edges := [(START, "analyzer"),
              ("analyzer", "question_generator"),
              ("question_generator", END)] }

/-- Follow the unique outgoing edge of a node. -/
def nextNode (g : CompiledGraph) (n : String) : Option String :=
  (g.edges.find? (fun e => e.1 == n)).map (fun e => e.2)

/-- The node visit order of the compiled graph executor, starting from a
node and following edges until `END` (or until fuel runs out). -/
def executionOrderAux (g : CompiledGraph) : ℕ → String → List String
  | 0, _ => []
  | fuel + 1, n =>
    match nextNode g n with
    | none => []
    | some m => if m == END then [] else m :: executionOrderAux g fuel m

/-- The node visit order of one run of the compiled graph. -/
def executionOrder (g : CompiledGraph) : List String :=
  executionOrderAux g (g.nodes.length + 1) START

/-- The observable stages of one pipeline run, in execution order. -/
inductive AnalysisEvent where
  | profile (field : String)
  | describe (field : String)
  | summarize
  | generateQuestions
deriving DecidableEq

/-- The stage rank of an event: field profiling, field description, dataset
summary, question generation. -/
def phase : AnalysisEvent → ℕ
  | .profile _ => 0
  | .describe _ => 1
  | .summarize => 2
  | .generateQuestions => 3

/-- The event trace of `generateFieldDescriptions`: one model call per
field, in field order. -/
def generateFieldDescriptionsEvents (fields : List String) : List AnalysisEvent :=
  fields.map AnalysisEvent.describe

/-- The event trace of `dataAnalyzer`: its body profiles every field (first
pass), then generates the per-field descriptions (second pass), then the
dataset summary (third pass), sequentially. -/
def dataAnalyzerEvents (data : List Row) : List AnalysisEvent :=
  ((dataFields data).map AnalysisEvent.profile) ++
    generateFieldDescriptionsEvents (dataFields data) ++ [AnalysisEvent.summarize]

/-- The event trace of the question generator: its `k + 1` model
invocations. -/
def questionGeneratorEvents (k : ℕ) : List AnalysisEvent :=
  (List.range (k + 1)).map (fun _ => AnalysisEvent.generateQuestions)

/-- The event trace of one pipeline run: the analyzer node runs before the
question-generator node (in the order given by `executionOrder`). -/
def pipelineEvents (data : List Row) (k : ℕ) : List AnalysisEvent :=
  dataAnalyzerEvents data ++ questionGeneratorEvents k

/-- The numeric payloads of the present values of a field (what the
`values as number[]` cast denotes on a homogeneous numeric column). -/
def numericValues (data : List Row) (field : String) : List ℚ :=
  (presentValues data field).filterMap asNumber

/-! ### Demonstration inputs used by the witnesses -/

/-- A 4-row demonstration dataset with a numeric column `x` (one missing
value) and a categorical column `c`. -/
def demoData : List Row :=
  [[("x", JSValue.num 3), ("c", JSValue.str "a")],
   [("x", JSValue.num 1), ("c", JSValue.str "b")],
   [("x", JSValue.num 2), ("c", JSValue.str "a")],
   [("c", JSValue.str "a")]]

/-- A well-formed call of the `getGraphCatalog` tool. -/
def demoCall : ToolCall := { name := "getGraphCatalog", id := some "1", args := ToolArgs.emptyArgs }

/-- The tool message `demoCall` produces. -/
def demoCallMsg : ToolMessage :=
  { content := ToolResult.catalogJson graphCatalog, tool_call_id := "1", name := "getGraphCatalog" }

/-- An oracle that requests one round of tool calls and then answers. -/
def demoOracle : ℕ → ModelResponse :=
  fun k => if k = 0 then { content := "", tool_calls := [demoCall] } else { content := "done", tool_calls := [] }

/-- An oracle whose first `bound` responses request a (valid) tool call and
whose later responses request none. -/
def stubbornOracle (bound : ℕ) : ℕ → ModelResponse :=
  fun k => if k < bound then { content := "", tool_calls := [demoCall] } else { content := "done", tool_calls := [] }

/-- A parse oracle that always fails (standing in for an unparseable model
answer). -/
def demoFailParse : String → Except String (List ParsedQuestion) :=
  fun _ => .error "parse error"

/-- A uuid supply. -/
def demoIds : ℕ → String := fun i => toString i

/-- A graph state with no metadata. -/
def demoEmptyState : GraphState := { data := [], metadata := none }

/-!
## Helper lemmas
-/

theorem foldl_add_map_eq (f : ℚ → ℚ) :
    ∀ (l : List ℚ) (a : ℚ), l.foldl (fun x b => x + f b) a = a + (l.map f).sum := by
  intro l
  induction l with
  | nil => intro a; simp
  | cons x xs ih =>
    intro a
    simp only [List.foldl_cons, List.map_cons, List.sum_cons, ih, add_assoc]

theorem jsSum_eq_sum (l : List ℚ) : jsSum l = l.sum := by
  have h := foldl_add_map_eq (fun b => b) l 0
  simpa [jsSum] using h

theorem sqDevSum_eq_sum (m : ℚ) (l : List ℚ) :
    sqDevSum m l = (l.map (fun b => (b - m) ^ 2)).sum := by
  have h := foldl_add_map_eq (fun b => (b - m) ^ 2) l 0
  simpa [sqDevSum] using h

theorem foldl_min_le_init : ∀ (l : List ℚ) (a : ℚ), l.foldl min a ≤ a := by
  intro l
  induction l with
  | nil => intro a; simp
  | cons x xs ih =>
    intro a
    simpa using le_trans (ih (min a x)) (min_le_left a x)

theorem foldl_min_le_mem : ∀ (l : List ℚ) (a : ℚ), ∀ x ∈ l, l.foldl min a ≤ x := by
  intro l
  induction l with
  | nil => intro a x hx; simp at hx
  | cons y ys ih =>
    intro a x hx
    rcases List.mem_cons.mp hx with h | h
    · subst h
      simpa using le_trans (foldl_min_le_init ys (min a x)) (min_le_right a x)
    · exact ih (min a y) x h

theorem foldl_min_mem : ∀ (l : List ℚ) (a : ℚ), l.foldl min a = a ∨ l.foldl min a ∈ l := by
  intro l
  induction l with
  | nil => intro a; left; rfl
  | cons x xs ih =>
    intro a
    rcases ih (min a x) with h | h
    · rcases min_cases a x with ⟨hm, _⟩ | ⟨hm, _⟩
      · left; simpa [hm] using h
      · right
        rw [hm] at h
        simp only [List.foldl_cons, hm, h]
        exact List.mem_cons_self x xs
    · right
      exact List.mem_cons_of_mem x h

theorem mathMin_le {l : List ℚ} (h : l ≠ []) : ∀ x ∈ l, mathMin l ≤ x := by
  match l with
  | [] => exact absurd rfl h
  | y :: ys =>
    intro x hx
    rcases List.mem_cons.mp hx with hxy | hxy
    · subst hxy
      exact le_trans (foldl_min_le_init ys x) le_rfl
    · exact foldl_min_le_mem ys y x hxy

theorem mathMin_mem {l : List ℚ} (h : l ≠ []) : mathMin l ∈ l := by
  match l with
  | [] => exact absurd rfl h
  | y :: ys =>
    rcases foldl_min_mem ys y with hm | hm
    · simp [mathMin, hm]
    · exact List.mem_cons_of_mem y hm

theorem foldl_max_ge_init : ∀ (l : List ℚ) (a : ℚ), a ≤ l.foldl max a := by
  intro l
  induction l with
  | nil => intro a; simp
  | cons x xs ih =>
    intro a
    simpa using le_trans (le_max_left a x) (ih (max a x))

theorem foldl_max_ge_mem : ∀ (l : List ℚ) (a : ℚ), ∀ x ∈ l, x ≤ l.foldl max a := by
  intro l
  induction l with
  | nil => intro a x hx; simp at hx
  | cons y ys ih =>
    intro a x hx
    rcases List.mem_cons.mp hx with h | h
    · subst h
      simpa using le_trans (le_max_right a x) (foldl_max_ge_init ys (max a x))
    · exact ih (max a y) x h

theorem foldl_max_mem : ∀ (l : List ℚ) (a : ℚ), l.foldl max a = a ∨ l.foldl max a ∈ l := by
  intro l
  induction l with
  | nil => intro a; left; rfl
  | cons x xs ih =>
    intro a
    rcases ih (max a x) with h | h
    · rcases max_cases a x with ⟨hm, _⟩ | ⟨hm, _⟩
      · left; simpa [hm] using h
      · right
        rw [hm] at h
        simp only [List.foldl_cons, hm, h]
        exact List.mem_cons_self x xs
    · right
      exact List.mem_cons_of_mem x h

theorem mathMax_ge {l : List ℚ} (h : l ≠ []) : ∀ x ∈ l, x ≤ mathMax l := by
  match l with
  | [] => exact absurd rfl h
  | y :: ys =>
    intro x hx
    rcases List.mem_cons.mp hx with hxy | hxy
    · subst hxy
      exact foldl_max_ge_init ys x
    · exact foldl_max_ge_mem ys y x hxy

theorem mathMax_mem {l : List ℚ} (h : l ≠ []) : mathMax l ∈ l := by
  match l with
  | [] => exact absurd rfl h
  | y :: ys =>
    rcases foldl_max_mem ys y with hm | hm
    · simp [mathMax, hm]
    · exact List.mem_cons_of_mem y hm

theorem filterMap_asNumber_length {l : List JSValue}
    (h : l.all (fun v => typeofJS v == "number") = true) :
    (l.filterMap asNumber).length = l.length := by
  induction l with
  | nil => rfl
  | cons v vs ih =>
    simp only [List.all_cons, Bool.and_eq_true] at h
    obtain ⟨hv, hvs⟩ := h
    cases v with
    | num q => simp [List.filterMap_cons, asNumber, ih hvs]
    | str s =>
      have hvs2 : (("string" : String) == "number") = true := hv
      exact absurd hvs2 (by decide)
    | bool b =>
      have hvb2 : (("boolean" : String) == "number") = true := hv
      exact absurd hvb2 (by decide)

theorem filterMap_asNumber_map_num {l : List JSValue}
    (h : l.all (fun v => typeofJS v == "number") = true) :
    (l.filterMap asNumber).map JSValue.num = l := by
  induction l with
  | nil => rfl
  | cons v vs ih =>
    simp only [List.all_cons, Bool.and_eq_true] at h
    obtain ⟨hv, hvs⟩ := h
    cases v with
    | num q => simp [List.filterMap_cons, asNumber, ih hvs]
    | str s =>
      have hvs2 : (("string" : String) == "number") = true := hv
      exact absurd hvs2 (by decide)
    | bool b =>
      have hvb2 : (("boolean" : String) == "number") = true := hv
      exact absurd hvb2 (by decide)

theorem fieldType_eq_number {l : List JSValue} (hne : l ≠ [])
    (hnum : l.all (fun v => typeofJS v == "number") = true) :
    fieldType l = "number" := by
  match l with
  | [] => exact absurd rfl hne
  | v :: vs =>
    simp only [List.all_cons, Bool.and_eq_true] at hnum
    have hv := hnum.1
    cases v with
    | num q => rfl
    | str s =>
      have h2 : (("string" : String) == "number") = true := hv
      exact absurd h2 (by decide)
    | bool b =>
      have h2 : (("boolean" : String) == "number") = true := hv
      exact absurd h2 (by decide)

theorem inspectField_numeric_eq (data : List Row) (field : String)
    (hft : fieldType (presentValues data field) = "number") :
    inspectField data field =
      { type := "number"
        samples := (percentileSamples (sortNumbers
          ((presentValues data field).filterMap asNumber))).map JSValue.num
        uniqueValues := none
        totalValues := (presentValues data field).length
        missingValues := data.length - (presentValues data field).length
        stats := some
          { min := mathMin ((presentValues data field).filterMap asNumber)
            max := mathMax ((presentValues data field).filterMap asNumber)
            mean := jsSum ((presentValues data field).filterMap asNumber) /
              (((presentValues data field).filterMap asNumber).length : ℚ)
            variance := sqDevSum
              (jsSum ((presentValues data field).filterMap asNumber) /
                (((presentValues data field).filterMap asNumber).length : ℚ))
              ((presentValues data field).filterMap asNumber) /
              (((presentValues data field).filterMap asNumber).length : ℚ) } } := by
  simp only [inspectField, hft, if_pos]

/-- **C1.** For every numeric field (all present values numbers, at least
one of them) the profiler's statistics satisfy: `min` is the least present
value, `max` the greatest, `mean` the sum of the present values divided by
their count, and `std` (`Real.sqrt` of the recorded radicand) the square
root of the mean squared deviation of the present values from that mean. -/
theorem inspectField_numeric_stats (data : List Row) (field : String)
    (hne : presentValues data field ≠ [])
    (hnum : (presentValues data field).all (fun v => typeofJS v == "number") = true) :
    ∃ st : NumericStats,
      (inspectField data field).stats = some st ∧
      (numericValues data field).length = (presentValues data field).length ∧
      (numericValues data field).map JSValue.num = presentValues data field ∧
      st.min ∈ numericValues data field ∧
      (∀ x ∈ numericValues data field, st.min ≤ x) ∧
      st.max ∈ numericValues data field ∧
      (∀ x ∈ numericValues data field, x ≤ st.max) ∧
      st.mean = (numericValues data field).sum / ((numericValues data field).length : ℚ) ∧
      Real.sqrt (st.variance : ℝ) =
        Real.sqrt (((((numericValues data field).map
            (fun x => (x - st.mean) ^ 2)).sum /
          ((numericValues data field).length : ℚ) : ℚ) : ℝ)) := by
  have hft := fieldType_eq_number hne hnum
  have heq := inspectField_numeric_eq data field hft
  have hlen : (numericValues data field).length = (presentValues data field).length :=
    filterMap_asNumber_length hnum
  have hmapnum : (numericValues data field).map JSValue.num = presentValues data field :=
    filterMap_asNumber_map_num hnum
  have hnumsne : numericValues data field ≠ [] := by
    intro h0
    have h1 : (presentValues data field).length = 0 := by
      rw [← hlen, h0]
      rfl
    exact hne (List.length_eq_zero.mp h1)
  refine ⟨{ min := mathMin (numericValues data field)
            max := mathMax (numericValues data field)
            mean := jsSum (numericValues data field) /
              ((numericValues data field).length : ℚ)
            variance := sqDevSum
              (jsSum (numericValues data field) /
                ((numericValues data field).length : ℚ))
              (numericValues data field) /
              ((numericValues data field).length : ℚ) },
    ?_, hlen, hmapnum, mathMin_mem hnumsne, mathMin_le hnumsne,
    mathMax_mem hnumsne, mathMax_ge hnumsne, ?_, ?_⟩
  · rw [heq]
    rfl
  · show jsSum (numericValues data field) / _ = _
    rw [jsSum_eq_sum]
  · show Real.sqrt ((sqDevSum _ _ / _ : ℚ) : ℝ) = _
    rw [sqDevSum_eq_sum]

/-- Witness for C1: the hypotheses hold at the demonstration dataset, and
the theorem applies there. -/
theorem inspectField_numeric_stats_witness :
    (presentValues demoData "x" ≠ [] ∧
      (presentValues demoData "x").all (fun v => typeofJS v == "number") = true) ∧
    (inspectField demoData "x").stats.map (fun s => s.mean) =
      some ((numericValues demoData "x").sum / ((numericValues demoData "x").length : ℚ)) := by
  obtain ⟨st, hst, _, _, _, _, _, _, hmean, _⟩ :=
    inspectField_numeric_stats demoData "x" (by decide) (by decide)
  refine ⟨⟨by decide, by decide⟩, ?_⟩
  rw [hst]
  simp [hmean]

theorem enumFrom_filter_map_eq {α : Type _} (P : ℕ → Bool) (d : α) :
    ∀ (xs : List α) (k : ℕ),
      ((List.enumFrom k xs).filter (fun iv => P iv.1)).map (fun iv => iv.2)
        = (((List.range xs.length).map (fun i => i + k)).filter P).map
            (fun i => xs.getD (i - k) d) := by
  intro xs
  induction xs with
  | nil =>
    intro k
    simp
  | cons a xs ih =>
    intro k
    have hcongr : ∀ i ∈ ((List.range xs.length).map (fun i => i + (k + 1))).filter P,
        (a :: xs).getD (i - k) d = xs.getD (i - (k + 1)) d := by
      intro i hi
      obtain ⟨j, _, hj⟩ := List.mem_map.mp (List.mem_of_mem_filter hi)
      have h1 : i - k = j + 1 := by omega
      have h2 : i - (k + 1) = j := by omega
      rw [h1, h2, List.getD_cons_succ]
    have hcomp : ((fun i => i + k) ∘ Nat.succ) = (fun i => i + (k + 1)) := by
      funext i
      simp only [Function.comp_apply, Nat.succ_eq_add_one]
      omega
    show (((k, a) :: List.enumFrom (k + 1) xs).filter (fun iv => P iv.1)).map (fun iv => iv.2)
        = (((List.range (xs.length + 1)).map (fun i => i + k)).filter P).map
            (fun i => (a :: xs).getD (i - k) d)
    rw [List.range_succ_eq_map, List.map_cons, List.map_map, hcomp]
    rw [List.filter_cons, List.filter_cons]
    simp only [Nat.zero_add]
    by_cases hP : P k = true
    · simp only [hP, if_true, List.map_cons, Nat.sub_self, List.getD_cons_zero]
      rw [ih (k + 1), List.map_congr_left hcongr]
    · simp only [hP, Bool.false_eq_true, if_false]
      rw [ih (k + 1), List.map_congr_left hcongr]

theorem filterWithIndex_eq_range {α : Type _} (P : ℕ → Bool) (d : α) (xs : List α) :
    filterWithIndex P xs
      = ((List.range xs.length).filter P).map (fun i => xs.getD i d) := by
  have h := enumFrom_filter_map_eq P d xs 0
  simpa [filterWithIndex, List.enum] using h

theorem getD_mem {α : Type _} {l : List α} {i : ℕ} (h : i < l.length) (d : α) :
    l.getD i d ∈ l := by
  rw [List.getD_eq_getElem l d h]
  exact List.getElem_mem h

theorem sorted_getD_zero_le {l : List ℚ} (hs : l.Sorted (fun a b => a ≤ b)) :
    ∀ x ∈ l, l.getD 0 0 ≤ x := by
  match l with
  | [] =>
    intro x hx
    simp at hx
  | a :: t =>
    intro x hx
    rw [List.getD_cons_zero]
    rcases List.mem_cons.mp hx with h | h
    · exact le_of_eq h.symm
    · exact (List.pairwise_cons.mp hs).1 x h

theorem sorted_le_getD_last : ∀ (l : List ℚ), l.Sorted (fun a b => a ≤ b) →
    ∀ x ∈ l, x ≤ l.getD (l.length - 1) 0
  | [], _, x, hx => by simp at hx
  | [a], _, x, hx => by
    rcases List.mem_cons.mp hx with h | h
    · simp [h]
    · simp at h
  | a :: b :: t, hs, x, hx => by
    have hps := List.pairwise_cons.mp hs
    have hrec := sorted_le_getD_last (b :: t) hps.2
    have hlast_mem : (b :: t).getD ((b :: t).length - 1) 0 ∈ b :: t :=
      getD_mem (by simp) 0
    have hidx : (a :: b :: t).length - 1 = ((b :: t).length - 1) + 1 := by
      simp
    rw [hidx, List.getD_cons_succ]
    rcases List.mem_cons.mp hx with h | h
    · subst h
      exact hps.1 _ hlast_mem
    · exact hrec x h

theorem sorted_getD_le {l : List ℚ} (hs : l.Sorted (fun a b => a ≤ b))
    {i j : ℕ} (hij : i ≤ j) (hj : j < l.length) : l.getD i 0 ≤ l.getD j 0 := by
  have hi : i < l.length := lt_of_le_of_lt hij hj
  rcases lt_or_eq_of_le hij with h | h
  · rw [List.getD_eq_getElem l 0 hi, List.getD_eq_getElem l 0 hj]
    exact List.Sorted.rel_get_of_lt hs h
  · subst h
    rfl

theorem sortNumbers_sorted (l : List ℚ) :
    (sortNumbers l).Sorted (fun a b => a ≤ b) :=
  List.sorted_insertionSort (fun a b => a ≤ b) l

theorem sortNumbers_perm (l : List ℚ) : (sortNumbers l).Perm l :=
  List.perm_insertionSort (fun a b => a ≤ b) l

theorem sortNumbers_length (l : List ℚ) : (sortNumbers l).length = l.length :=
  (sortNumbers_perm l).length_eq

theorem mathMin_eq_sorted_getD_zero {nums : List ℚ} (h : nums ≠ []) :
    mathMin nums = (sortNumbers nums).getD 0 0 := by
  have hperm := sortNumbers_perm nums
  have hsort := sortNumbers_sorted nums
  have h0lt : 0 < (sortNumbers nums).length := by
    rw [sortNumbers_length]
    exact List.length_pos.mpr h
  apply le_antisymm
  · exact mathMin_le h _ (hperm.mem_iff.mp (getD_mem h0lt 0))
  · exact sorted_getD_zero_le hsort _ (hperm.mem_iff.mpr (mathMin_mem h))

theorem mathMax_eq_sorted_getD_last {nums : List ℚ} (h : nums ≠ []) :
    mathMax nums = (sortNumbers nums).getD ((sortNumbers nums).length - 1) 0 := by
  have hperm := sortNumbers_perm nums
  have hsort := sortNumbers_sorted nums
  have h0lt : (sortNumbers nums).length - 1 < (sortNumbers nums).length := by
    rw [sortNumbers_length]
    have := List.length_pos.mpr h
    omega
  apply le_antisymm
  · exact sorted_le_getD_last _ hsort _ (hperm.mem_iff.mpr (mathMax_mem h))
  · exact mathMax_ge h _ (hperm.mem_iff.mp (getD_mem h0lt 0))

theorem percentilePositions_length (n : ℕ) : (percentilePositions n).length = 5 := rfl

theorem zero_mem_percentilePositions (n : ℕ) : 0 ∈ percentilePositions n := by
  refine List.mem_map.mpr ⟨0, by simp, ?_⟩
  norm_num

theorem last_mem_percentilePositions {n : ℕ} (h : 1 ≤ n) :
    n - 1 ∈ percentilePositions n := by
  refine List.mem_map.mpr ⟨1, by simp, ?_⟩
  have h1 : (1 : ℚ) * ((n : ℚ) - 1) = ((n - 1 : ℕ) : ℚ) := by
    push_cast [h]
    ring
  rw [h1, Int.floor_natCast]
  exact Int.toNat_natCast _

/-- **C4.** For every numeric field with at least one present value, the
sample list is exactly the sorted present values read off at the distinct
indices `Math.floor(p * (n - 1))`, `p ∈ {0, 1/4, 1/2, 3/4, 1}`, in ascending
index order; the minimum and maximum are always included and at most five
samples are produced. -/
theorem inspectField_numeric_samples (data : List Row) (field : String)
    (hne : presentValues data field ≠ [])
    (hnum : (presentValues data field).all (fun v => typeofJS v == "number") = true) :
    (inspectField data field).samples =
      (((List.range (numericValues data field).length).filter
          (fun i => (percentilePositions (numericValues data field).length).contains i)).map
        (fun i => (sortNumbers (numericValues data field)).getD i 0)).map JSValue.num ∧
    (sortNumbers (numericValues data field)).Sorted (fun a b => a ≤ b) ∧
    (sortNumbers (numericValues data field)).Perm (numericValues data field) ∧
    (percentileSamples (sortNumbers (numericValues data field))).Sorted (fun a b => a ≤ b) ∧
    JSValue.num (mathMin (numericValues data field)) ∈ (inspectField data field).samples ∧
    JSValue.num (mathMax (numericValues data field)) ∈ (inspectField data field).samples ∧
    (inspectField data field).samples.length ≤ 5 := by
  have hft := fieldType_eq_number hne hnum
  have heq := inspectField_numeric_eq data field hft
  have hplen : (numericValues data field).length = (presentValues data field).length :=
    filterMap_asNumber_length hnum
  have hnumsne : numericValues data field ≠ [] := by
    intro h0
    have h1 : (presentValues data field).length = 0 := by
      rw [← hplen, h0]
      rfl
    exact hne (List.length_eq_zero.mp h1)
  have hn : 0 < (numericValues data field).length := List.length_pos.mpr hnumsne
  have hlen : (sortNumbers (numericValues data field)).length
      = (numericValues data field).length := sortNumbers_length _
  have hsamp : (inspectField data field).samples
      = (percentileSamples (sortNumbers (numericValues data field))).map JSValue.num := by
    rw [heq]
    rfl
  have hps : percentileSamples (sortNumbers (numericValues data field))
      = ((List.range (numericValues data field).length).filter
          (fun i => (percentilePositions (numericValues data field).length).contains i)).map
        (fun i => (sortNumbers (numericValues data field)).getD i 0) := by
    simp only [percentileSamples]
    rw [filterWithIndex_eq_range _ 0, hlen]
  have hpairfilter : ((List.range (numericValues data field).length).filter
      (fun i => (percentilePositions (numericValues data field).length).contains i)).Pairwise
        (fun i j => i < j) :=
    (List.pairwise_lt_range _).filter _
  have hsortedSamples :
      (percentileSamples (sortNumbers (numericValues data field))).Sorted (fun a b => a ≤ b) := by
    rw [hps]
    refine List.pairwise_map.mpr (hpairfilter.imp_of_mem ?_)
    intro i j hi hj hij
    have hjn : j < (numericValues data field).length :=
      List.mem_range.mp (List.mem_of_mem_filter hj)
    exact sorted_getD_le (sortNumbers_sorted _) (le_of_lt hij) (by rw [hlen]; exact hjn)
  have h0mem : (0 : ℕ) ∈ (List.range (numericValues data field).length).filter
      (fun i => (percentilePositions (numericValues data field).length).contains i) := by
    refine List.mem_filter.mpr ⟨List.mem_range.mpr hn, ?_⟩
    exact List.elem_iff.mpr (zero_mem_percentilePositions _)
  have hlastmem : ((numericValues data field).length - 1) ∈
      (List.range (numericValues data field).length).filter
      (fun i => (percentilePositions (numericValues data field).length).contains i) := by
    refine List.mem_filter.mpr ⟨List.mem_range.mpr (by omega), ?_⟩
    exact List.elem_iff.mpr (last_mem_percentilePositions hn)
  have hminmem : JSValue.num (mathMin (numericValues data field))
      ∈ (inspectField data field).samples := by
    rw [hsamp, hps]
    refine List.mem_map.mpr ⟨_, List.mem_map.mpr ⟨0, h0mem, rfl⟩, ?_⟩
    rw [mathMin_eq_sorted_getD_zero hnumsne]
  have hmaxmem : JSValue.num (mathMax (numericValues data field))
      ∈ (inspectField data field).samples := by
    rw [hsamp, hps]
    refine List.mem_map.mpr ⟨_, List.mem_map.mpr ⟨(numericValues data field).length - 1,
      hlastmem, rfl⟩, ?_⟩
    rw [mathMax_eq_sorted_getD_last hnumsne, hlen]
  have hlen5 : (inspectField data field).samples.length ≤ 5 := by
    rw [hsamp, hps, List.length_map, List.length_map]
    have hnd : ((List.range (numericValues data field).length).filter
        (fun i => (percentilePositions (numericValues data field).length).contains i)).Nodup :=
      (List.nodup_range _).filter _
    have hsub : ((List.range (numericValues data field).length).filter
        (fun i => (percentilePositions (numericValues data field).length).contains i)).toFinset
        ⊆ (percentilePositions (numericValues data field).length).toFinset := by
      intro i hi
      rw [List.mem_toFinset] at hi ⊢
      exact List.elem_iff.mp (List.mem_filter.mp hi).2
    calc ((List.range (numericValues data field).length).filter
          (fun i => (percentilePositions (numericValues data field).length).contains i)).length
        = ((List.range (numericValues data field).length).filter
          (fun i => (percentilePositions (numericValues data field).length).contains i)).toFinset.card :=
          (List.toFinset_card_of_nodup hnd).symm
      _ ≤ (percentilePositions (numericValues data field).length).toFinset.card :=
          Finset.card_le_card hsub
      _ ≤ (percentilePositions (numericValues data field).length).length :=
          List.toFinset_card_le _
      _ = 5 := percentilePositions_length _
  exact ⟨by rw [hsamp, hps], sortNumbers_sorted _, sortNumbers_perm _,
    hsortedSamples, hminmem, hmaxmem, hlen5⟩

/-- Witness for C4: the hypotheses hold at the demonstration dataset and the
theorem applies there. -/
theorem inspectField_numeric_samples_witness :
    (presentValues demoData "x" ≠ [] ∧
      (presentValues demoData "x").all (fun v => typeofJS v == "number") = true) ∧
    JSValue.num (mathMin (numericValues demoData "x")) ∈ (inspectField demoData "x").samples ∧
    (inspectField demoData "x").samples.length ≤ 5 := by
  obtain ⟨_, _, _, _, hmin, _, hlen5⟩ :=
    inspectField_numeric_samples demoData "x" (by decide) (by decide)
  exact ⟨⟨by decide, by decide⟩, hmin, hlen5⟩

theorem bumpCount_keys_of_mem {m : List (String × ℕ)} {k : String}
    (h : m.any (fun e => e.1 == k) = true) :
    (bumpCount m k).map Prod.fst = m.map Prod.fst := by
  simp only [bumpCount, h, if_true]
  rw [List.map_map]
  refine List.map_congr_left ?_
  intro e _
  by_cases he : (e.1 == k) = true
  · simp [Function.comp, he]
  · simp [Function.comp, he]

theorem bumpCount_invariant {m : List (String × ℕ)} {prev : List String} (k : String)
    (h1 : (m.map Prod.fst).Nodup)
    (h2 : ∀ s : String, s ∈ m.map Prod.fst ↔ s ∈ prev)
    (h3 : ∀ e ∈ m, e.2 = prev.count e.1) :
    ((bumpCount m k).map Prod.fst).Nodup ∧
    (∀ s : String, s ∈ (bumpCount m k).map Prod.fst ↔ s ∈ prev ++ [k]) ∧
    (∀ e ∈ bumpCount m k, e.2 = (prev ++ [k]).count e.1) := by
  by_cases hmem : m.any (fun e => e.1 == k) = true
  · have hkeys := bumpCount_keys_of_mem hmem
    have hkmem : k ∈ m.map Prod.fst := by
      obtain ⟨e, he, heq⟩ := List.any_eq_true.mp hmem
      exact List.mem_map.mpr ⟨e, he, beq_iff_eq.mp heq⟩
    refine ⟨by rw [hkeys]; exact h1, ?_, ?_⟩
    · intro s
      rw [hkeys, List.mem_append, List.mem_singleton]
      constructor
      · intro hs
        exact Or.inl ((h2 s).mp hs)
      · rintro (hs | hs)
        · exact (h2 s).mpr hs
        · subst hs
          exact hkmem
    · intro e' he'
      simp only [bumpCount, hmem, if_true] at he'
      obtain ⟨e, he, hfe⟩ := List.mem_map.mp he'
      by_cases hek : (e.1 == k) = true
      · have hek2 := beq_iff_eq.mp hek
        rw [if_pos hek] at hfe
        subst hfe
        show e.2 + 1 = _
        rw [h3 e he, hek2, List.count_append, List.count_singleton]
        simp
      · rw [if_neg hek] at hfe
        subst hfe
        have hne : k ≠ e.1 := fun hc => hek (beq_iff_eq.mpr hc.symm)
        rw [h3 e he, List.count_append, List.count_singleton]
        simp [hne]
  · have hmem2 : m.any (fun e => e.1 == k) = false := by
      cases hval : m.any (fun e => e.1 == k) with
      | false => rfl
      | true => exact absurd hval hmem
    have hforall := List.any_eq_false.mp hmem2
    have hknotin : k ∉ m.map Prod.fst := by
      intro hk
      obtain ⟨e, he, heq⟩ := List.mem_map.mp hk
      exact hforall e he (beq_iff_eq.mpr heq)
    have hbump : bumpCount m k = m ++ [(k, 1)] := by
      simp only [bumpCount, hmem2, Bool.false_eq_true, if_false]
    refine ⟨?_, ?_, ?_⟩
    · rw [hbump, List.map_append, List.nodup_append]
      refine ⟨h1, by simp, ?_⟩
      intro s hs hs2
      simp only [List.map_cons, List.map_nil, List.mem_singleton] at hs2
      subst hs2
      exact hknotin hs
    · intro s
      rw [hbump, List.map_append, List.mem_append, List.mem_append]
      simp only [List.map_cons, List.map_nil, List.mem_singleton]
      constructor
      · rintro (hs | hs)
        · exact Or.inl ((h2 s).mp hs)
        · exact Or.inr hs
      · rintro (hs | hs)
        · exact Or.inl ((h2 s).mpr hs)
        · exact Or.inr hs
    · intro e' he'
      rw [hbump] at he'
      rcases List.mem_append.mp he' with he | he
      · have hne : k ≠ e'.1 := fun hc => hforall e' he (beq_iff_eq.mpr hc.symm)
        rw [h3 e' he, List.count_append, List.count_singleton]
        simp [hne]
      · simp only [List.mem_singleton] at he
        subst he
        show 1 = _
        have hkprev : k ∉ prev := fun hc => hknotin ((h2 k).mpr hc)
        rw [List.count_append, List.count_eq_zero.mpr hkprev, List.count_singleton]
        simp

theorem foldl_bumpCount_invariant :
    ∀ (vs : List String) (m : List (String × ℕ)) (prev : List String),
      (m.map Prod.fst).Nodup →
      (∀ s : String, s ∈ m.map Prod.fst ↔ s ∈ prev) →
      (∀ e ∈ m, e.2 = prev.count e.1) →
      (((vs.foldl bumpCount m).map Prod.fst).Nodup ∧
       (∀ s : String, s ∈ (vs.foldl bumpCount m).map Prod.fst ↔ s ∈ prev ++ vs) ∧
       (∀ e ∈ vs.foldl bumpCount m, e.2 = (prev ++ vs).count e.1)) := by
  intro vs
  induction vs with
  | nil =>
    intro m prev h1 h2 h3
    simp only [List.foldl_nil, List.append_nil]
    exact ⟨h1, h2, h3⟩
  | cons v vs ih =>
    intro m prev h1 h2 h3
    obtain ⟨b1, b2, b3⟩ := bumpCount_invariant v h1 h2 h3
    have hres := ih (bumpCount m v) (prev ++ [v]) b1 b2 b3
    have happ : (prev ++ [v]) ++ vs = prev ++ v :: vs := by
      rw [List.append_assoc]
      rfl
    rw [List.foldl_cons, ← happ]
    exact hres

theorem valueCounts_spec (vs : List String) :
    ((valueCounts vs).map Prod.fst).Nodup ∧
    (∀ s : String, s ∈ (valueCounts vs).map Prod.fst ↔ s ∈ vs) ∧
    (∀ e ∈ valueCounts vs, e.2 = vs.count e.1) := by
  have h := foldl_bumpCount_invariant vs [] [] (by simp) (by simp) (by simp)
  simp only [List.nil_append] at h
  exact h

theorem inspectField_categorical_eq (data : List Row) (field : String)
    (hft : fieldType (presentValues data field) ≠ "number") :
    inspectField data field =
      { type := fieldType (presentValues data field)
        samples := (presentValues data field).take 5
        uniqueValues := some ((valueCounts ((presentValues data field).map jsString)).map
          (fun e => { value := e.1, count := e.2,
                      frequency := (e.2 : ℚ) / ((presentValues data field).length : ℚ) }))
        totalValues := (presentValues data field).length
        missingValues := data.length - (presentValues data field).length
        stats := none } := by
  simp only [inspectField]
  rw [if_neg hft]

/-- **C5.** For every non-numeric field, `uniqueValues` has exactly one
entry per distinct string representation of the present values; each entry
counts the present values with that representation and its frequency is
that count over the number of present values; the samples are the first
five present values in row order. -/
theorem inspectField_categorical_spec (data : List Row) (field : String)
    (hft : fieldType (presentValues data field) ≠ "number") :
    ∃ uniq : List UniqueValueEntry,
      (inspectField data field).uniqueValues = some uniq ∧
      (uniq.map (fun e => e.value)).Nodup ∧
      (∀ s : String, s ∈ uniq.map (fun e => e.value) ↔
        s ∈ (presentValues data field).map jsString) ∧
      (∀ e ∈ uniq, e.count = ((presentValues data field).map jsString).count e.value ∧
        e.frequency = (e.count : ℚ) / ((presentValues data field).length : ℚ)) ∧
      (inspectField data field).samples = (presentValues data field).take 5 := by
  obtain ⟨hnd, hmem, hcount⟩ := valueCounts_spec ((presentValues data field).map jsString)
  have heq := inspectField_categorical_eq data field hft
  refine ⟨(valueCounts ((presentValues data field).map jsString)).map
    (fun e => { value := e.1, count := e.2,
                frequency := (e.2 : ℚ) / ((presentValues data field).length : ℚ) }),
    by rw [heq], ?_, ?_, ?_, by rw [heq]⟩
  · rw [List.map_map]
    exact hnd
  · intro s
    rw [List.map_map]
    exact hmem s
  · intro e' he'
    obtain ⟨e, he, hfe⟩ := List.mem_map.mp he'
    subst hfe
    exact ⟨hcount e he, rfl⟩

/-- Witness for C5: the categorical column of the demonstration dataset. -/
theorem inspectField_categorical_spec_witness :
    fieldType (presentValues demoData "c") ≠ "number" ∧
    (inspectField demoData "c").samples = (presentValues demoData "c").take 5 := by
  obtain ⟨uniq, _, _, _, _, hsamp⟩ :=
    inspectField_categorical_spec demoData "c" (by decide)
  exact ⟨by decide, hsamp⟩

theorem inspectField_counts (data : List Row) (field : String) :
    (inspectField data field).totalValues = (presentValues data field).length ∧
    (inspectField data field).missingValues
      = data.length - (presentValues data field).length := by
  by_cases hft : fieldType (presentValues data field) = "number"
  · rw [inspectField_numeric_eq data field hft]
    exact ⟨rfl, rfl⟩
  · rw [inspectField_categorical_eq data field hft]
    exact ⟨rfl, rfl⟩

theorem presentValues_length_le (data : List Row) (field : String) :
    (presentValues data field).length ≤ data.length := by
  have h := List.reduceOption_length_le (data.map (fun item => rowGet item field))
  simpa [presentValues] using h

theorem reduceOption_length_eq_countP (l : List (Option α)) :
    l.reduceOption.length = l.countP (fun o => o.isSome) := by
  induction l with
  | nil => rfl
  | cons o t ih =>
    cases o with
    | none => simpa [List.reduceOption_cons_of_none, List.countP_cons] using ih
    | some a => simpa [List.reduceOption_cons_of_some, List.countP_cons] using ih

theorem presentValues_length_eq (data : List Row) (field : String) :
    (presentValues data field).length
      = data.countP (fun item => (rowGet item field).isSome) := by
  rw [presentValues, reduceOption_length_eq_countP, List.countP_map]
  rfl

theorem missing_count_eq (data : List Row) (field : String) :
    data.length - (presentValues data field).length
      = (data.filter (fun item => (rowGet item field).isNone)).length := by
  rw [presentValues_length_eq, ← List.countP_eq_length_filter]
  have hsplit := List.length_eq_countP_add_countP
    (fun item => (rowGet item field).isSome) data
  have hcongr : data.countP (fun a => decide ¬ ((rowGet a field).isSome = true))
      = data.countP (fun item => (rowGet item field).isNone) := by
    refine List.countP_congr ?_
    intro item _
    cases h : rowGet item field <;> simp [h]
  omega

/-- **C8.** For every dataset and every field the analyzer profiles, the
produced field metadata satisfies `missingCount + totalCount = rowCount`
(the number of rows), and `missingCount` counts exactly the rows in which
the field's value is `undefined`. -/
theorem analyzer_missing_total_counts (describe : String → String) (summary : String)
    (data : List Row) (field : String) (hf : field ∈ dataFields data) :
    (field, { mkFieldMetadata (inspectField data field) with description := describe field })
      ∈ (dataAnalyzer describe summary data).fields ∧
    (mkFieldMetadata (inspectField data field)).missingCount
        + (mkFieldMetadata (inspectField data field)).totalCount
      = (dataAnalyzer describe summary data).rowCount ∧
    (mkFieldMetadata (inspectField data field)).missingCount
      = (data.filter (fun item => (rowGet item field).isNone)).length := by
  obtain ⟨htot, hmiss⟩ := inspectField_counts data field
  have hle := presentValues_length_le data field
  refine ⟨?_, ?_, ?_⟩
  · simp only [dataAnalyzer, List.map_map]
    exact List.mem_map.mpr ⟨field, hf, rfl⟩
  · show (inspectField data field).missingValues + (inspectField data field).totalValues = _
    rw [htot, hmiss]
    show _ = data.length
    omega
  · show (inspectField data field).missingValues = _
    rw [hmiss, missing_count_eq]

/-- Witness for C8 at the demonstration dataset. -/
theorem analyzer_missing_total_counts_witness :
    "x" ∈ dataFields demoData ∧
    (mkFieldMetadata (inspectField demoData "x")).missingCount
        + (mkFieldMetadata (inspectField demoData "x")).totalCount
      = (dataAnalyzer (fun _ => "") "" demoData).rowCount := by
  obtain ⟨_, hsum, _⟩ :=
    analyzer_missing_total_counts (fun _ => "") "" demoData "x" (by decide)
  exact ⟨by decide, hsum⟩

theorem map_key_description_eta :
    ∀ (l : List GraphType),
      l.map (fun g => ({ key := g.key, description := g.description } : GraphType)) = l := by
  intro l
  induction l with
  | nil => rfl
  | cons g t ih =>
    rw [List.map_cons, ih]

theorem graphCatalog_nodup : graphCatalog.Nodup := by
  have hk : (graphCatalog.map (fun g => g.key)).Nodup := by decide
  exact hk.of_map

/-- **C9.** Every graph returned by `suggestGraphs` is an entry of the fixed
19-entry catalog (same key, same description), the returned list is a
sublist of the catalog (hence in catalog order and without duplicates), and
the input `numericCount = 0, categoricalCount = 0` returns the empty list. -/
theorem suggestGraphs_catalog (a : SuggestGraphsArgs) :
    (suggestGraphs a).Sublist graphCatalog ∧
    (∀ g ∈ suggestGraphs a, g ∈ graphCatalog) ∧
    (suggestGraphs a).Nodup ∧
    graphCatalog.length = 19 ∧
    (∀ (b : Bool) (pc : PointCount),
      suggestGraphs ⟨0, 0, b, pc⟩ = []) := by
  have hsub : (suggestGraphs a).Sublist graphCatalog := by
    rw [suggestGraphs, map_key_description_eta]
    exact List.filter_sublist _
  refine ⟨hsub, fun g hg => hsub.subset hg, hsub.nodup graphCatalog_nodup, rfl, ?_⟩
  intro b pc
  cases b <;> cases pc <;> decide

/-- Witness for C9: a concrete invocation is a nodup sublist of the catalog
and the degenerate input returns nothing. -/
theorem suggestGraphs_catalog_witness :
    (suggestGraphs ⟨1, 0, false, PointCount.few⟩).Sublist graphCatalog ∧
    (suggestGraphs ⟨1, 0, false, PointCount.few⟩).Nodup ∧
    suggestGraphs ⟨0, 0, false, PointCount.many⟩ = [] := by
  obtain ⟨hsub, _, hnd, _, hempty⟩ := suggestGraphs_catalog ⟨1, 0, false, PointCount.few⟩
  exact ⟨hsub, hnd, hempty false PointCount.many⟩

/-- **C7.** Exactly two tools are available (`getGraphCatalog` and
`suggestGraphs`), and `callTool` raises an error - returning no tool
message - for a call whose name is neither of these or whose id is
missing. -/
theorem callTool_two_tools :
    visualizationTools.map (fun t => t.name) = ["getGraphCatalog", "suggestGraphs"] ∧
    (∀ tc : ToolCall, tc.name ∉ (["getGraphCatalog", "suggestGraphs"] : List String) →
      (callTool tc).toOption = none) ∧
    (∀ tc : ToolCall, tc.id = none → (callTool tc).toOption = none) := by
  refine ⟨rfl, ?_, ?_⟩
  · intro tc hname
    have hfind : toolsByName tc.name = none := by
      rw [toolsByName, List.find?_eq_none]
      intro t ht
      intro hbeq
      apply hname
      have heqname := beq_iff_eq.mp hbeq
      rcases List.mem_cons.mp ht with rfl | ht2
      · rw [← heqname]
        exact List.mem_cons_self _ _
      · rcases List.mem_cons.mp ht2 with rfl | ht3
        · rw [← heqname]
          exact List.mem_cons_of_mem _ (List.mem_cons_self _ _)
        · simp at ht3
    simp only [callTool]
    rw [hfind]
    rfl
  · intro tc hid
    cases hfind : toolsByName tc.name with
    | none =>
      simp only [callTool]
      rw [hfind]
      rfl
    | some tool =>
      simp only [callTool]
      rw [hfind, hid]
      rfl

/-- Witness for C7: a bogus tool name and a missing id each produce an
error. -/
theorem callTool_two_tools_witness :
    ("bogusTool" : String) ∉ (["getGraphCatalog", "suggestGraphs"] : List String) ∧
    (callTool ⟨"bogusTool", some "1", ToolArgs.emptyArgs⟩).toOption = none ∧
    (callTool ⟨"getGraphCatalog", none, ToolArgs.emptyArgs⟩).toOption = none := by
  obtain ⟨_, hunknown, hnoid⟩ := callTool_two_tools
  exact ⟨by decide, hunknown _ (by decide), hnoid _ rfl⟩

theorem collectToolMessages_ok_eq :
    ∀ {tcs : List ToolCall} {ms : List ToolMessage},
      collectToolMessages tcs = .ok ms →
      ms = tcs.filterMap (fun tc => (callTool tc).toOption) ∧ ms.length = tcs.length := by
  intro tcs
  induction tcs with
  | nil =>
    intro ms h
    simp only [collectToolMessages] at h
    cases h
    exact ⟨rfl, rfl⟩
  | cons tc tcs ih =>
    intro ms h
    simp only [collectToolMessages] at h
    cases hct : callTool tc with
    | error e =>
      rw [hct] at h
      cases h
    | ok m =>
      rw [hct] at h
      cases hrest : collectToolMessages tcs with
      | error e =>
        rw [hrest] at h
        cases h
      | ok ms2 =>
        rw [hrest] at h
        cases h
        obtain ⟨h1, h2⟩ := ih hrest
        constructor
        · rw [List.filterMap_cons, hct]
          show m :: ms2 = m :: _
          rw [h1]
        · simp only [List.length_cons, h2]

theorem roundExecOk_iff {r : ModelResponse} :
    roundExecOk r = true ↔ ∃ ms, collectToolMessages r.tool_calls = .ok ms := by
  rw [roundExecOk]
  cases h : collectToolMessages r.tool_calls with
  | error e => simp [Except.toOption]
  | ok ms => simp [Except.toOption]

theorem roundHasCalls_ne {r : ModelResponse} (h : roundHasCalls r = true) :
    r.tool_calls.isEmpty = false := by
  rw [roundHasCalls] at h
  cases hc : r.tool_calls.isEmpty with
  | false => rfl
  | true => rw [hc] at h; cases h

/-- The closed-form run of the tool-calling loop: starting at invocation
index `j` with `k` tool-calling rounds ahead (all of whose tool calls
execute successfully) and a call-free response after them, the loop
terminates, appending each round's response and tool results to the message
list, with `j + k + 1` total invocations. -/
theorem toolLoopAux_run (oracle : ℕ → ModelResponse) :
    ∀ (k fuel j : ℕ) (msgs : List Message),
      k < fuel →
      (∀ i, i < k → roundHasCalls (oracle (j + i)) = true ∧ roundExecOk (oracle (j + i)) = true) →
      (oracle (j + k)).tool_calls = [] →
      toolLoopAux oracle fuel j msgs =
        some (.ok { messages := msgs ++ (List.range k).flatMap
                      (fun i => roundMessages (oracle (j + i)))
                    finalResponse := oracle (j + k)
                    invocations := j + k + 1 }) := by
  intro k
  induction k with
  | zero =>
    intro fuel j msgs hfuel hrounds hstop
    match fuel, hfuel with
    | fuel + 1, _ =>
      simp only [toolLoopAux]
      have hstop2 : (oracle j).tool_calls = [] := hstop
      rw [hstop2]
      simp [List.range_zero, List.flatMap_nil]
  | succ k ih =>
    intro fuel j msgs hfuel hrounds hstop
    match fuel, hfuel with
    | fuel + 1, hfuel =>
      have h0 := hrounds 0 (Nat.succ_pos k)
      have hne : (oracle (j + 0)).tool_calls.isEmpty = false := roundHasCalls_ne h0.1
      have hne2 : (oracle j).tool_calls.isEmpty = false := hne
      obtain ⟨tms, htms⟩ := roundExecOk_iff.mp h0.2
      have htms2 : collectToolMessages (oracle j).tool_calls = .ok tms := htms
      simp only [toolLoopAux]
      rw [hne2, htms2]
      simp only [Bool.false_eq_true, if_false]
      have hrec := ih fuel (j + 1)
        (msgs ++ [Message.ai (oracle j)] ++ tms.map Message.toolMsg)
        (by omega)
        (fun i hik => by
          have h := hrounds (i + 1) (by omega)
          have hidx : j + (i + 1) = j + 1 + i := by omega
          rw [hidx] at h
          exact h)
        (by
          have hidx : j + (k + 1) = j + 1 + k := by omega
          rw [hidx] at hstop
          exact hstop)
      rw [hrec]
      have hfun : (fun i => roundMessages (oracle (j + 1 + i)))
          = (fun i => roundMessages (oracle (j + (i + 1)))) := by
        funext i
        have hidx : j + 1 + i = j + (i + 1) := by omega
        rw [hidx]
      have hmsgs : (msgs ++ [Message.ai (oracle j)] ++ tms.map Message.toolMsg)
          ++ (List.range k).flatMap (fun i => roundMessages (oracle (j + 1 + i)))
          = msgs ++ (List.range (k + 1)).flatMap (fun i => roundMessages (oracle (j + i))) := by
        rw [hfun, List.range_succ_eq_map, List.flatMap_cons, List.flatMap_map]
        have htmseq : tms = (oracle j).tool_calls.filterMap (fun tc => (callTool tc).toOption) :=
          (collectToolMessages_ok_eq htms2).1
        rw [htmseq]
        show (msgs ++ [Message.ai (oracle (j + 0))] ++ _) ++ _ = _
        simp only [List.append_assoc, List.singleton_append]
        rfl
      rw [hmsgs]
      have hidx2 : j + 1 + k = j + (k + 1) := by omega
      rw [hidx2]

/-- **C2 counterexample.** The request/response cycle of the question
generator is not bounded by any fixed number of model invocations: for every
candidate bound `B`, the oracle whose first `B` responses each request a
valid tool call forces a finished run with `B + 1` invocations. -/
theorem boundedLoopClaim_false : ¬ boundedLoopClaim := by
  rintro ⟨B, hB⟩
  have hrounds : ∀ i, i < B → roundHasCalls (stubbornOracle B (0 + i)) = true ∧
      roundExecOk (stubbornOracle B (0 + i)) = true := by
    intro i hi
    have hor : stubbornOracle B (0 + i) = { content := "", tool_calls := [demoCall] } := by
      simp only [stubbornOracle]
      rw [if_pos (show 0 + i < B by omega)]
    rw [hor]
    exact ⟨rfl, by decide⟩
  have hstop : (stubbornOracle B (0 + B)).tool_calls = [] := by
    simp only [stubbornOracle]
    rw [if_neg (show ¬ 0 + B < B by omega)]
  have hrun := toolLoopAux_run (stubbornOracle B) B (B + 1) 0 [] (by omega) hrounds hstop
  have hinv : loopInvocations (stubbornOracle B) (B + 1) [] = some (0 + B + 1) := by
    simp only [loopInvocations]
    rw [hrun]
  have hle := hB (stubbornOracle B) (B + 1) [] (0 + B + 1) hinv
  omega

theorem loopRoundsOk_elim {oracle : ℕ → ModelResponse} {k : ℕ}
    (h : loopRoundsOk oracle k = true) :
    ∀ i, i < k → roundHasCalls (oracle i) = true ∧ roundExecOk (oracle i) = true := by
  intro i hi
  have hall := List.all_eq_true.mp h i (List.mem_range.mpr hi)
  simp only [Bool.and_eq_true] at hall
  exact hall

/-- **C2 (amended).** The loop is not bounded; instead, for every oracle
whose first `k` responses each request successfully-executing tool calls
and whose `(k+1)`-st response requests none, a run with enough fuel
finishes with exactly `k + 1` model invocations. -/
theorem toolLoop_invocation_count (oracle : ℕ → ModelResponse) (msgs : List Message)
    (k fuel : ℕ) (hrounds : loopRoundsOk oracle k = true)
    (hstop : (oracle k).tool_calls = []) (hfuel : k < fuel) :
    loopInvocations oracle fuel msgs = some (k + 1) := by
  have hr : ∀ i, i < k → roundHasCalls (oracle (0 + i)) = true ∧
      roundExecOk (oracle (0 + i)) = true := by
    intro i hi
    rw [Nat.zero_add]
    exact loopRoundsOk_elim hrounds i hi
  have hstop2 : (oracle (0 + k)).tool_calls = [] := by
    rw [Nat.zero_add]
    exact hstop
  have hrun := toolLoopAux_run oracle k fuel 0 msgs hfuel hr hstop2
  simp only [loopInvocations]
  rw [hrun]
  simp

/-- Witness for the amended C2 at a concrete one-round oracle. -/
theorem toolLoop_invocation_count_witness :
    loopRoundsOk demoOracle 1 = true ∧ (demoOracle 1).tool_calls = [] ∧
    loopInvocations demoOracle 2 [] = some 2 :=
  ⟨by decide, by decide,
    toolLoop_invocation_count demoOracle [] 1 2 (by decide) (by decide) (by omega)⟩

/-- **C3.** For every oracle, the loop re-invokes the model exactly once per
response containing tool calls: if the first `k` responses request tool
calls (all executing successfully) and the `(k+1)`-st requests none, the
finished run appends, per round, the model response followed by one tool
message per requested call, performs `k + 1` invocations, and its final
response - the one handed to the output parser - is the first response
without tool calls. -/
theorem toolLoop_run_characterization (oracle : ℕ → ModelResponse) (msgs : List Message)
    (k fuel : ℕ) (hrounds : loopRoundsOk oracle k = true)
    (hstop : (oracle k).tool_calls = []) (hfuel : k < fuel) :
    toolLoopAux oracle fuel 0 msgs =
      some (.ok { messages := msgs ++ (List.range k).flatMap
                    (fun i => roundMessages (oracle i))
                  finalResponse := oracle k
                  invocations := k + 1 }) ∧
    ((List.range k).all (fun i =>
      ((oracle i).tool_calls.filterMap (fun tc => (callTool tc).toOption)).length
        == (oracle i).tool_calls.length)) = true := by
  have hr : ∀ i, i < k → roundHasCalls (oracle (0 + i)) = true ∧
      roundExecOk (oracle (0 + i)) = true := by
    intro i hi
    rw [Nat.zero_add]
    exact loopRoundsOk_elim hrounds i hi
  have hstop2 : (oracle (0 + k)).tool_calls = [] := by
    rw [Nat.zero_add]
    exact hstop
  have hrun := toolLoopAux_run oracle k fuel 0 msgs hfuel hr hstop2
  constructor
  · rw [hrun]
    have hfun : (fun i => roundMessages (oracle (0 + i)))
        = (fun i => roundMessages (oracle i)) := by
      funext i
      rw [Nat.zero_add]
    rw [hfun]
    simp
  · refine List.all_eq_true.mpr ?_
    intro i hi
    have hik := List.mem_range.mp hi
    obtain ⟨ms, hms⟩ := roundExecOk_iff.mp (loopRoundsOk_elim hrounds i hik).2
    obtain ⟨h1, h2⟩ := collectToolMessages_ok_eq hms
    refine beq_iff_eq.mpr ?_
    rw [← h1, h2]

/-- Witness for C3 at a concrete one-round oracle. -/
theorem toolLoop_run_characterization_witness :
    loopRoundsOk demoOracle 1 = true ∧ (demoOracle 1).tool_calls = [] ∧
    (toolLoopAux demoOracle 2 0 []).isSome = true ∧
    (List.range 1).flatMap (fun i => roundMessages (demoOracle i))
      = [Message.ai (demoOracle 0), Message.toolMsg demoCallMsg] := by
  obtain ⟨hrun, _⟩ :=
    toolLoop_run_characterization demoOracle [] 1 2 (by decide) (by decide) (by omega)
  refine ⟨by decide, by decide, ?_, by decide⟩
  rw [hrun]
  rfl

/-- **C10.** The `questionGenerator` node never escapes an exception and
changes only the `questions` component: whenever a run returns, the returned
metadata's `fields`, `rowCount`, `summary` and `dataQualityIssues` are those
of the input state's metadata (with defaults exactly when the input carries
no metadata), the returned `questions` is always present, and on any failed
run it is the empty list. -/
theorem questionGenerator_frame
    (parse : String → Except String (List ParsedQuestion)) (newId : ℕ → String)
    (oracle : ℕ → ModelResponse) (fuel : ℕ) (state : GraphState)
    (md2 : DatasetMetadata)
    (h : questionGenerator parse newId oracle fuel state = some md2) :
    md2.fields = (state.metadata.map (fun m => m.fields)).getD [] ∧
    md2.rowCount = (state.metadata.map (fun m => m.rowCount)).getD 0 ∧
    md2.summary = (state.metadata.map (fun m => m.summary)).getD "Error generating questions" ∧
    md2.dataQualityIssues = (state.metadata.map (fun m => m.dataQualityIssues)).getD [] ∧
    md2.questions.isSome = true ∧
    (qgSucceeds parse oracle fuel state = false → md2.questions = some []) := by
  cases hmd : state.metadata with
  | none =>
    simp only [questionGenerator, hmd, Option.some.injEq] at h
    subst h
    refine ⟨?_, ?_, ?_, ?_, rfl, fun _ => rfl⟩ <;> simp [qgErrorMetadata, hmd]
  | some md =>
    simp only [questionGenerator, hmd] at h
    cases hloop : toolLoopAux oracle fuel 0 (qgInitialMessages md) with
    | none =>
      simp only [hloop] at h
      cases h
    | some res =>
      cases res with
      | error e =>
        simp only [hloop, Option.some.injEq] at h
        subst h
        refine ⟨?_, ?_, ?_, ?_, rfl, fun _ => rfl⟩ <;> simp [qgErrorMetadata, hmd]
      | ok res =>
        simp only [hloop] at h
        cases hparse : parse res.finalResponse.content with
        | error e =>
          simp only [hparse, Option.some.injEq] at h
          subst h
          refine ⟨?_, ?_, ?_, ?_, rfl, fun _ => rfl⟩ <;> simp [qgErrorMetadata, hmd]
        | ok qs =>
          simp only [hparse, Option.some.injEq] at h
          subst h
          have hsucc : qgSucceeds parse oracle fuel state = true := by
            simp only [qgSucceeds, hmd, hloop, hparse]
            rfl
          refine ⟨by simp, by simp, by simp, by simp, rfl, ?_⟩
          intro hfalse
          rw [hsucc] at hfalse
          cases hfalse

/-- Witness for C10: a state without metadata takes the error path, keeping
the default components and an empty question list. -/
theorem questionGenerator_frame_witness :
    questionGenerator demoFailParse demoIds demoOracle 1 demoEmptyState
      = some (qgErrorMetadata demoEmptyState) ∧
    (qgErrorMetadata demoEmptyState).fields = [] ∧
    (qgErrorMetadata demoEmptyState).questions = some [] := by
  have h : questionGenerator demoFailParse demoIds demoOracle 1 demoEmptyState
      = some (qgErrorMetadata demoEmptyState) := rfl
  obtain ⟨hf, _, _, _, _, hq⟩ := questionGenerator_frame demoFailParse demoIds demoOracle 1
    demoEmptyState (qgErrorMetadata demoEmptyState) h
  exact ⟨h, by simpa using hf, hq rfl⟩

theorem sorted_phases_of_const {l : List AnalysisEvent} {c : ℕ}
    (h : ∀ e ∈ l, phase e = c) :
    (l.map phase).Pairwise (fun a b : ℕ => a ≤ b) ∧ ∀ x ∈ l.map phase, x = c := by
  induction l with
  | nil => exact ⟨List.Pairwise.nil, by simp⟩
  | cons e t ih =>
    have he := h e (List.mem_cons_self e t)
    have ht := fun x hx => h x (List.mem_cons_of_mem e hx)
    obtain ⟨p1, p2⟩ := ih ht
    constructor
    · rw [List.map_cons]
      refine List.pairwise_cons.mpr ⟨?_, p1⟩
      intro b hb
      rw [he, p2 b hb]
    · intro x hx
      rw [List.map_cons] at hx
      rcases List.mem_cons.mp hx with rfl | hx
      · exact he
      · exact p2 x hx

/-- **C6.** The pipeline's stages run in a fixed order on every run: the
compiled graph visits `analyzer` strictly before `question_generator`, and
the event trace profiles all fields, then describes each field, then
summarizes the dataset, and only after all of that performs the
question-generation model calls: the phase ranks along the trace are
nondecreasing. -/
theorem pipeline_stage_order (data : List Row) (k : ℕ) :
    executionOrder createAnalysisGraph = ["analyzer", "question_generator"] ∧
    ((pipelineEvents data k).map phase).Sorted (fun a b => a ≤ b) := by
  refine ⟨by decide, ?_⟩
  obtain ⟨hp1, hp2⟩ := sorted_phases_of_const
    (l := (dataFields data).map AnalysisEvent.profile) (c := 0)
    (by
      intro e he
      obtain ⟨f, _, rfl⟩ := List.mem_map.mp he
      rfl)
  obtain ⟨hd1, hd2⟩ := sorted_phases_of_const
    (l := (dataFields data).map AnalysisEvent.describe) (c := 1)
    (by
      intro e he
      obtain ⟨f, _, rfl⟩ := List.mem_map.mp he
      rfl)
  obtain ⟨hs1, hs2⟩ := sorted_phases_of_const
    (l := [AnalysisEvent.summarize]) (c := 2)
    (by
      intro e he
      rw [List.mem_singleton] at he
      rw [he]
      rfl)
  obtain ⟨hq1, hq2⟩ := sorted_phases_of_const
    (l := (List.range (k + 1)).map (fun _ => AnalysisEvent.generateQuestions)) (c := 3)
    (by
      intro e he
      obtain ⟨f, _, rfl⟩ := List.mem_map.mp he
      rfl)
  show ((pipelineEvents data k).map phase).Pairwise (fun a b : ℕ => a ≤ b)
  rw [pipelineEvents, dataAnalyzerEvents, generateFieldDescriptionsEvents,
    questionGeneratorEvents, List.map_append, List.map_append, List.map_append]
  refine List.pairwise_append.mpr ⟨?_, hq1, ?_⟩
  · refine List.pairwise_append.mpr ⟨List.pairwise_append.mpr ⟨hp1, hd1, ?_⟩, hs1, ?_⟩
    · intro a ha b hb
      rw [hp2 a ha, hd2 b hb]
      omega
    · intro a ha b hb
      rw [hs2 b hb]
      rcases List.mem_append.mp ha with ha2 | ha2
      · rw [hp2 a ha2]
        omega
      · rw [hd2 a ha2]
        omega
  · intro a ha b hb
    rw [hq2 b hb]
    rcases List.mem_append.mp ha with ha2 | ha2
    · rcases List.mem_append.mp ha2 with ha3 | ha3
      · rw [hp2 a ha3]
        omega
      · rw [hd2 a ha3]
        omega
    · rw [hs2 a ha2]
      omega

end AgenticAnalysis
